import Mathlib

/-!
Shallow embedding of the DESVU discrete-event simulation library
(headers `include/desvu/core/simulator.h`, `include/desvu/stats/…`).

C++ `double` values are modelled as `Rat`; arithmetic on the values the
claims exercise is exact there.  `std::sqrt` is kept abstract: the
functions that need it take a `sqrtFn : Rat → Rat` parameter, and every
property proved below holds for an arbitrary such parameter.
Exceptions (`throw std::invalid_argument`) are modelled by `Except`
results; a throwing member function leaves the receiver unchanged, which
the embedding expresses by returning only the error (the caller keeps the
old, unmodified value).
-/

namespace DESVU

/-! ### TimeWeightedStats (`stats/time_weighted_stats.h`) -/

structure TimeWeightedStats where
  name : String
  last_time : Rat
  last_value : Rat
  integral : Rat
  min : Rat
  max : Rat
  update_count : Nat
deriving DecidableEq

namespace TimeWeightedStats

/-- Constructor: initializes with value 0 at time 0; this counts as the
first update (`update_count_(1)`). -/
def init (name : String) : TimeWeightedStats :=
  { name := name, last_time := 0, last_value := 0, integral := 0,
    min := 0, max := 0, update_count := 1 }

/-- `TimeWeightedStats::Update`: throws `std::invalid_argument` when
`time < last_time_` (before any field is assigned); otherwise accumulates
the previous value over the elapsed duration and records the new sample. -/
def Update (time value : Rat) (s : TimeWeightedStats) :
    Except String TimeWeightedStats :=
  if time < s.last_time then
    .error "Update time must be >= last update time"
  else
    .ok { s with
          integral := s.integral + s.last_value * (time - s.last_time),
          min := Min.min s.min value,
          max := Max.max s.max value,
          last_time := time,
          last_value := value,
          update_count := s.update_count + 1 }

/-- The state of the C++ object after calling `Update`: a throwing call
leaves the object unchanged (the throw precedes every field assignment). -/
def applyUpdate (time value : Rat) (s : TimeWeightedStats) : TimeWeightedStats :=
  match s.Update time value with
  | .ok s' => s'
  | .error _ => s

def Count (s : TimeWeightedStats) : Nat := s.update_count

/-- `TimeWeightedStats::Average`: returns 0 for `end_time <= 0`, otherwise
the accumulated integral extended by the open final interval, divided by
`end_time`.  The source contains no other branch: in particular there is
no check against `last_time_`. -/
def Average (end_time : Rat) (s : TimeWeightedStats) : Rat :=
  if end_time ≤ 0 then 0
  else (s.integral + s.last_value * (end_time - s.last_time)) / end_time

/-- Modelled from the spec: the spec (§4.5, §7) and the repository's own
test (`test_time_weighted_stats.cpp`, "end time before last update")
require `Average(endTime)` to fail with an invalid-argument error when
`endTime < lastTime`.  This definition follows those words; the shipped
`Average` above follows the shipped code, which lacks the check. -/
def AverageSpec (end_time : Rat) (s : TimeWeightedStats) : Except String Rat :=
  if end_time ≤ 0 then .ok 0
  else if end_time < s.last_time then
    .error "cannot average before the last recorded update"
  else .ok ((s.integral + s.last_value * (end_time - s.last_time)) / end_time)

def LastValue (s : TimeWeightedStats) : Rat := s.last_value

def LastTime (s : TimeWeightedStats) : Rat := s.last_time

def Integral (s : TimeWeightedStats) : Rat := s.integral

end TimeWeightedStats

/-! ### EventStats (`stats/time_weighted_stats.h`, second class) -/

structure EventStats where
  name : String
  observations : List Rat
deriving DecidableEq

namespace EventStats

def init (name : String) : EventStats := { name := name, observations := [] }

/-- `EventStats::Add`: `observations_.push_back(value)`. -/
def Add (value : Rat) (s : EventStats) : EventStats :=
  { s with observations := s.observations ++ [value] }

def Count (s : EventStats) : Nat := s.observations.length

/-- `EventStats::Average`: `std::accumulate(begin, end, 0.0)` divided by
the size; 0 when empty. -/
def Average (s : EventStats) : Rat :=
  if s.observations.isEmpty then 0
  else s.observations.foldl (· + ·) 0 / (s.observations.length : Rat)

/-- `EventStats::StandardDeviation` (sample convention): 0 when fewer than
2 observations; otherwise the square root of the squared deviations from
the mean divided by `size - 1`. -/
def StandardDeviation (sqrtFn : Rat → Rat) (s : EventStats) : Rat :=
  if s.observations.length < 2 then 0
  else
    let avg := s.Average
    let variance := s.observations.foldl (fun acc val => acc + (val - avg) * (val - avg)) 0
    sqrtFn (variance / ((s.observations.length : Rat) - 1))

/-- `EventStats::Min`: `*std::min_element(...)`; 0 when empty. -/
def Minimum (s : EventStats) : Rat :=
  match s.observations with
  | [] => 0
  | x :: xs => xs.foldl Min.min x

/-- `EventStats::Max`: `*std::max_element(...)`; 0 when empty. -/
def Maximum (s : EventStats) : Rat :=
  match s.observations with
  | [] => 0
  | x :: xs => xs.foldl Max.max x

/-- The inline `t_values[]` table from `ConfidenceInterval95`: two-tailed
95% Student-t critical values for df = 1..29. -/
def tValues : List Rat :=
  [12.706, 4.303, 3.182, 2.776, 2.571,
   2.447, 2.365, 2.306, 2.262, 2.228,
   2.201, 2.179, 2.160, 2.145, 2.131,
   2.120, 2.110, 2.101, 2.093, 2.086,
   2.080, 2.074, 2.069, 2.064, 2.060,
   2.056, 2.052, 2.048, 2.045]

/-- The critical-value selection inside `ConfidenceInterval95`:
`1.96` for `n > 30`, otherwise `t_values[df - 1]` with `df = n - 1`. -/
def criticalValue (n : Nat) : Rat :=
  if n > 30 then 1.96 else tValues.getD (n - 2) 0

/-- `EventStats::ConfidenceInterval95`: throws for fewer than 2
observations; otherwise `mean ∓ criticalValue · stddev / sqrt n`. -/
def ConfidenceInterval95 (sqrtFn : Rat → Rat) (s : EventStats) :
    Except String (Rat × Rat) :=
  if s.observations.length < 2 then
    .error "Need at least 2 observations to compute confidence interval"
  else
    let mean := s.Average
    let std_dev := s.StandardDeviation sqrtFn
    let n := s.observations.length
    let std_error := std_dev / sqrtFn (n : Rat)
    let critical_value := criticalValue n
    let margin := critical_value * std_error
    .ok (mean - margin, mean + margin)

/-- Adds the observations of `l` in order (a sequence of `Add` calls). -/
def addAll (l : List Rat) (s : EventStats) : EventStats :=
  l.foldl (fun acc v => acc.Add v) s

end EventStats

/-! ### StatsCollector (`stats/stats_collector.h`), time-weighted map.
The `unordered_map` is modelled as an association list. -/

structure StatsCollector where
  time_weighted_stats : List (String × TimeWeightedStats)
deriving DecidableEq

namespace StatsCollector

def init : StatsCollector := { time_weighted_stats := [] }

/-- Update-or-insert on the association list, the effect of
`map[name] = value`. -/
def setEntry (name : String) (tw : TimeWeightedStats) :
    List (String × TimeWeightedStats) → List (String × TimeWeightedStats)
  | [] => [(name, tw)]
  | (k, w) :: rest =>
    if k = name then (name, tw) :: rest else (k, w) :: setEntry name tw rest

/-- `StatsCollector::Add(name, time, value)`: `operator[]` creates the
entry when absent, *then* `Update` runs and may throw.  A throw therefore
leaves the (possibly freshly created) entry in the map, holding the
instance `Update` left unchanged. -/
def AddTW (name : String) (time value : Rat) (c : StatsCollector) :
    Except String Unit × StatsCollector :=
  let tw0 := match c.time_weighted_stats.lookup name with
             | some tw => tw
             | none => TimeWeightedStats.init name
  match tw0.Update time value with
  | .error m =>
      (.error m, { c with time_weighted_stats := setEntry name tw0 c.time_weighted_stats })
  | .ok tw' =>
      (.ok (), { c with time_weighted_stats := setEntry name tw' c.time_weighted_stats })

def HasTimeWeighted (name : String) (c : StatsCollector) : Bool :=
  (c.time_weighted_stats.lookup name).isSome

def GetTimeWeighted (name : String) (c : StatsCollector) :
    Option TimeWeightedStats :=
  c.time_weighted_stats.lookup name

end StatsCollector

/-! ### Simulator (`core/simulator.h`, `core/event.h`)

An event's polymorphic `action(Simulator&)` is modelled by the capability
the run-loop claims depend on: scheduling further events.  `Action.seq d
child rest` performs `sim.schedule(make_shared<Event>(d, child))` and then
continues with `rest`.  `shared_ptr<Event>` is modelled as an index into
an arena (`events`), so that `cancel` on a handle is visible to the queue
entry referring to the same event.  `std::priority_queue` is modelled by
a list kept sorted under the comparator of `detail::ScheduledEvent`
(earliest time first, ties by lower id); `top`/`pop` is the head. -/

inductive Action where
  | noop : Action
  | seq (delay : Rat) (child : Action) (rest : Action) : Action
deriving DecidableEq

/-- All delays occurring in an action (at any depth) are non-negative. -/
def Action.wf : Action → Bool
  | .noop => true
  | .seq d c r => decide (0 ≤ d) && c.wf && r.wf

structure Event where
  delay : Rat
  time : Rat
  cancelled : Bool
  action : Action
deriving DecidableEq

/-- `Event::Event(delay)`: `delay(delay), time(0.0), cancelled(false)`. -/
def Event.mkEvent (delay : Rat) (a : Action) : Event :=
  { delay := delay, time := 0, cancelled := false, action := a }

/-- `detail::ScheduledEvent`: the queue entry triple. -/
structure ScheduledEvent where
  time : Rat
  id : Nat
  ref : Nat
deriving DecidableEq

/-- Priority of `detail::ScheduledEvent::operator<`, as a (non-strict)
"pops no later than" order: earlier time, or equal time and lower id. -/
def SEle (a b : ScheduledEvent) : Prop :=
  a.time < b.time ∨ (a.time = b.time ∧ a.id ≤ b.id)

/-- Strict version of `SEle`: strictly earlier time, or equal time and
strictly lower id. -/
def SElt (a b : ScheduledEvent) : Prop :=
  a.time < b.time ∨ (a.time = b.time ∧ a.id < b.id)

instance : DecidableRel SEle := fun a b =>
  inferInstanceAs (Decidable (a.time < b.time ∨ (a.time = b.time ∧ a.id ≤ b.id)))

instance : DecidableRel SElt := fun a b =>
  inferInstanceAs (Decidable (a.time < b.time ∨ (a.time = b.time ∧ a.id < b.id)))

instance : IsTotal ScheduledEvent SEle where
  total a b := by
    rcases lt_trichotomy a.time b.time with h | h | h
    · exact Or.inl (Or.inl h)
    · rcases Nat.le_total a.id b.id with h' | h'
      · exact Or.inl (Or.inr ⟨h, h'⟩)
      · exact Or.inr (Or.inr ⟨h.symm, h'⟩)
    · exact Or.inr (Or.inl h)

instance : IsTrans ScheduledEvent SEle where
  trans a b c hab hbc := by
    rcases hab with h | ⟨h, h'⟩ <;> rcases hbc with g | ⟨g, g'⟩
    · exact Or.inl (h.trans g)
    · exact Or.inl (g ▸ h)
    · exact Or.inl (h ▸ g)
    · exact Or.inr ⟨h.trans g, h'.trans g'⟩

structure Simulator where
  time : Rat
  log_events : Bool
  event_counter : Nat
  event_queue : List ScheduledEvent
  events : List Event
deriving DecidableEq

namespace Simulator

/-- `Simulator(bool)`: `time(0.0), log_events(..), event_counter(0)`. -/
def init : Simulator :=
  { time := 0, log_events := false, event_counter := 0,
    event_queue := [], events := [] }

def now (s : Simulator) : Rat := s.time

/-- `std::make_shared<Event>(delay, …)`: allocates the event, returning
its arena reference. -/
def newEvent (delay : Rat) (a : Action) (s : Simulator) : Simulator × Nat :=
  ({ s with events := s.events ++ [Event.mkEvent delay a] }, s.events.length)

/-- `Event::cancel()` on the handle `r`: `cancelled = true`. -/
def cancel (r : Nat) (s : Simulator) : Simulator :=
  match s.events.get? r with
  | none => s
  | some ev => { s with events := s.events.set r { ev with cancelled := true } }

/-- `Simulator::schedule`: `event->time = time + event->delay;
event_queue.emplace(event->time, event_counter++, event)`. -/
def schedule (r : Nat) (s : Simulator) : Simulator :=
  match s.events.get? r with
  | none => s
  | some ev =>
    let t := s.time + ev.delay
    { s with
      events := s.events.set r { ev with time := t },
      event_queue := s.event_queue.orderedInsert SEle ⟨t, s.event_counter, r⟩,
      event_counter := s.event_counter + 1 }

/-- `sim.schedule(std::make_shared<Event>(delay, …))`, the pattern every
call site uses: allocate then schedule. -/
def scheduleNew (delay : Rat) (a : Action) (s : Simulator) : Simulator :=
  let (s1, r) := s.newEvent delay a
  s1.schedule r

/-- Executes an event's `action(Simulator&)`: schedules each described
new event in turn. -/
def execAction : Action → Simulator → Simulator
  | .noop, s => s
  | .seq d c rest, s => execAction rest (s.scheduleNew d c)

/-- Prepends the executed entry `e` to the trace part of a run result. -/
def consTrace (e : ScheduledEvent) (p : Simulator × List ScheduledEvent) :
    Simulator × List ScheduledEvent :=
  (p.1, e :: p.2)

/-- `Simulator::run(until)`, fuel-bounded (the C++ loop need not
terminate); also returns the list of queue entries whose event action was
invoked, in invocation order.  Mirrors the loop body: pop the top entry;
if `until >= 0 && event_time > until`, set `time = until` and return
(the popped entry is *not* re-inserted); if the event is cancelled,
continue without touching `time`; otherwise set `time = event_time` and
invoke the action. -/
def runAux : Nat → Rat → Simulator → Simulator × List ScheduledEvent
  | 0, _, s => (s, [])
  | fuel + 1, til, s =>
    match s.event_queue with
    | [] => (s, [])
    | e :: rest =>
      if 0 ≤ til ∧ til < e.time then
        ({ s with event_queue := rest, time := til }, [])
      else
        match s.events.get? e.ref with
        | none => ({ s with event_queue := rest }, [])
        | some ev =>
          if ev.cancelled then runAux fuel til { s with event_queue := rest }
          else
            consTrace e (runAux fuel til
              (Simulator.execAction ev.action
                { s with event_queue := rest, time := e.time }))

/-- `Simulator::run(until)`, discarding the trace. -/
def run (fuel : Nat) (til : Rat) (s : Simulator) : Simulator :=
  (runAux fuel til s).1

end Simulator

/-- One externally invokable operation on a simulator. -/
inductive Op where
  | sched (delay : Rat) (a : Action)
  | cancel (r : Nat)
  | runOp (til : Rat) (fuel : Nat)

def applyOp : Op → Simulator → Simulator
  | .sched d a, s => s.scheduleNew d a
  | .cancel r, s => s.cancel r
  | .runOp til fuel, s => s.run fuel til

def applyOps : List Op → Simulator → Simulator
  | [], s => s
  | op :: ops, s => applyOps ops (applyOp op s)

/-- Well-formed invocation of a single operation, for the amended
monotonicity claim: scheduled delays are non-negative and a bounded `run`
is invoked with `until` at least the current time. -/
def okOp (s : Simulator) : Op → Prop
  | .sched d a => 0 ≤ d ∧ a.wf = true
  | .cancel _ => True
  | .runOp til _ => til < 0 ∨ s.time ≤ til

/-- Well-formed calling discipline along a whole operation sequence. -/
def okOps : Simulator → List Op → Prop
  | _, [] => True
  | s, op :: ops => okOp s op ∧ okOps (applyOp op s) ops

/-- Simulator states reachable through the public interface: the queue is
sorted under the `ScheduledEvent` comparator, ids are pairwise distinct
and below the counter, no pending entry is earlier than the clock, and
every allocated action carries non-negative delays. -/
def Simulator.WF (s : Simulator) : Prop :=
  s.event_queue.Sorted SEle ∧
  (∀ e ∈ s.event_queue, e.id < s.event_counter) ∧
  s.event_queue.Pairwise (fun a b => a.id ≠ b.id) ∧
  (∀ e ∈ s.event_queue, s.time ≤ e.time) ∧
  (∀ ev ∈ s.events, ev.action.wf = true)

/-! ## Theorems -/

/-! ### Order lemmas for `ScheduledEvent` -/

theorem SElt_trans {a b c : ScheduledEvent} (hab : SElt a b) (hbc : SElt b c) :
    SElt a c := by
  rcases hab with h | ⟨h, h'⟩ <;> rcases hbc with g | ⟨g, g'⟩
  · exact Or.inl (h.trans g)
  · exact Or.inl (g ▸ h)
  · exact Or.inl (h ▸ g)
  · exact Or.inr ⟨h.trans g, h'.trans g'⟩

theorem SElt_of_SEle_ne {a b : ScheduledEvent} (h : SEle a b) (hne : a.id ≠ b.id) :
    SElt a b := by
  rcases h with h | ⟨h, h'⟩
  · exact Or.inl h
  · exact Or.inr ⟨h, lt_of_le_of_ne h' hne⟩

theorem SEle_time_le {a b : ScheduledEvent} (h : SEle a b) : a.time ≤ b.time := by
  rcases h with h | ⟨h, _⟩
  · exact h.le
  · exact h.le

/-! ### TimeWeightedStats: claims C5 and C6 -/

/-- Claim C5: `TimeWeightedStats.Update(time, value)` fails with the
out-of-order invalid-argument error exactly when `time < lastTime`; a
failing call leaves the statistic unchanged; a succeeding call adds
`lastValue * (time - lastTime)` to the integral, updates min and max
against the new value, sets `lastTime = time` and `lastValue = value`,
and increments `updateCount`. -/
theorem update_order_check (t v : Rat) (s : TimeWeightedStats) :
    ((∃ msg, s.Update t v = .error msg) ↔ t < s.last_time) ∧
    (t < s.last_time → s.applyUpdate t v = s) ∧
    (s.last_time ≤ t → s.Update t v = .ok
      { name := s.name, last_time := t, last_value := v,
        integral := s.integral + s.last_value * (t - s.last_time),
        min := Min.min s.min v, max := Max.max s.max v,
        update_count := s.update_count + 1 }) := by
  refine ⟨?_, ?_, ?_⟩
  · by_cases h : t < s.last_time <;> simp [TimeWeightedStats.Update, h]
  · intro h
    simp [TimeWeightedStats.applyUpdate, TimeWeightedStats.Update, h]
  · intro h
    simp [TimeWeightedStats.Update, not_lt.2 h]

theorem update_order_check_witness :
    ((3 : Rat) < ((TimeWeightedStats.init "x").applyUpdate 5 10).last_time ∧
      ((TimeWeightedStats.init "x").applyUpdate 5 10).applyUpdate 3 7 =
        (TimeWeightedStats.init "x").applyUpdate 5 10) ∧
    ((TimeWeightedStats.init "x").applyUpdate 5 10).Update 6 2 = .ok
      { name := "x", last_time := 6, last_value := 2, integral := 10,
        min := 0, max := 10, update_count := 3 } := by
  have h5 : ((TimeWeightedStats.init "x").applyUpdate 5 10) =
      { name := "x", last_time := 5, last_value := 10, integral := 0,
        min := 0, max := 10, update_count := 2 } := by
    norm_num [TimeWeightedStats.applyUpdate, TimeWeightedStats.Update,
      TimeWeightedStats.init]
  have h1 := (update_order_check 3 7 ((TimeWeightedStats.init "x").applyUpdate 5 10)).2.1
  have h2 := (update_order_check 6 2 ((TimeWeightedStats.init "x").applyUpdate 5 10)).2.2
  rw [h5] at h1 h2 ⊢
  refine ⟨⟨by norm_num, h1 (by norm_num)⟩, ?_⟩
  rw [h2 (by norm_num)]
  norm_num

/-- Claim C6 (code bug): the shipped `Average` has no `endTime < lastTime`
check.  After `Update(0,10); Update(5,20)` (so `lastTime = 5`), the code
returns `Average(3) = 10/3` instead of raising the invalid-argument error
that the spec — and the repository's own test
(`test_time_weighted_stats.cpp`, "end time before last update") — demand;
the faithful-to-spec `AverageSpec` errors there.  The remaining conjuncts
show the branches the claim gets right: 0 for `endTime <= 0`, the
integral formula otherwise, and `Average(10) = 6.5` after
`(0,0) → (2,5) → (5,10)`. -/
theorem average_missing_lasttime_check :
    (((TimeWeightedStats.init "Test").applyUpdate 0 10).applyUpdate 5 20).last_time = 5 ∧
    TimeWeightedStats.Average 3
      (((TimeWeightedStats.init "Test").applyUpdate 0 10).applyUpdate 5 20) = 10 / 3 ∧
    TimeWeightedStats.AverageSpec 3
      (((TimeWeightedStats.init "Test").applyUpdate 0 10).applyUpdate 5 20) =
      .error "cannot average before the last recorded update" ∧
    (∀ (s : TimeWeightedStats) (t : Rat), t ≤ 0 → TimeWeightedStats.Average t s = 0) ∧
    (∀ (s : TimeWeightedStats) (t : Rat), 0 < t → TimeWeightedStats.Average t s =
      (s.integral + s.last_value * (t - s.last_time)) / t) ∧
    TimeWeightedStats.Average 10
      ((((TimeWeightedStats.init "q").applyUpdate 0 0).applyUpdate 2 5).applyUpdate 5 10)
      = 6.5 := by
  refine ⟨?_, ?_, ?_, ?_, ?_, ?_⟩
  · norm_num [TimeWeightedStats.applyUpdate, TimeWeightedStats.Update,
      TimeWeightedStats.init]
  · norm_num [TimeWeightedStats.applyUpdate, TimeWeightedStats.Update,
      TimeWeightedStats.init, TimeWeightedStats.Average]
  · norm_num [TimeWeightedStats.applyUpdate, TimeWeightedStats.Update,
      TimeWeightedStats.init, TimeWeightedStats.AverageSpec]
  · intro s t ht
    simp [TimeWeightedStats.Average, ht]
  · intro s t ht
    simp [TimeWeightedStats.Average, not_le.2 ht]
  · norm_num [TimeWeightedStats.applyUpdate, TimeWeightedStats.Update,
      TimeWeightedStats.init, TimeWeightedStats.Average]

/-! ### EventStats: claims C7, C8, C9 -/

/-- Claim C7: `ConfidenceInterval95` fails with the insufficient-data
error exactly when `n < 2`; otherwise it returns
`(mean - margin, mean + margin)` with
`margin = criticalValue(n) * stddev / sqrt n`, where the critical value
is 1.96 for `n > 30` and the two-tailed 95% Student-t table entry for
`df = n - 1` when `2 <= n <= 30`; the boundary values `n = 30`
(`t = 2.045`) and `n = 31` (`z = 1.96`) differ strictly. -/
theorem confidence_interval_95_spec (sqrtFn : Rat → Rat) (s : EventStats) :
    ((∃ msg, s.ConfidenceInterval95 sqrtFn = .error msg) ↔ s.Count < 2) ∧
    (2 ≤ s.Count → s.ConfidenceInterval95 sqrtFn = .ok
      (s.Average - EventStats.criticalValue s.Count *
          (s.StandardDeviation sqrtFn / sqrtFn (s.Count : Rat)),
       s.Average + EventStats.criticalValue s.Count *
          (s.StandardDeviation sqrtFn / sqrtFn (s.Count : Rat)))) ∧
    (∀ n : Nat, 30 < n → EventStats.criticalValue n = 1.96) ∧
    (∀ n : Nat, 2 ≤ n → n ≤ 30 →
      EventStats.criticalValue n = EventStats.tValues.getD ((n - 1) - 1) 0) ∧
    EventStats.criticalValue 30 = 2.045 ∧
    EventStats.criticalValue 31 = 1.96 ∧
    EventStats.criticalValue 30 ≠ EventStats.criticalValue 31 := by
  refine ⟨?_, ?_, ?_, ?_, ?_, ?_, ?_⟩
  · unfold EventStats.ConfidenceInterval95 EventStats.Count
    by_cases h : s.observations.length < 2 <;> simp [h]
  · intro h
    unfold EventStats.ConfidenceInterval95 EventStats.Count at *
    simp [not_lt.2 h]
  · intro n hn
    simp [EventStats.criticalValue, hn]
  · intro n h2 h30
    have hidx : n - 1 - 1 = n - 2 := by omega
    simp [EventStats.criticalValue, not_lt.2 h30, hidx]
  · norm_num [EventStats.criticalValue, EventStats.tValues]
  · norm_num [EventStats.criticalValue, EventStats.tValues]
  · norm_num [EventStats.criticalValue, EventStats.tValues]

theorem confidence_interval_95_spec_witness :
    2 ≤ (((EventStats.init "w").Add 5).Add 10).Count ∧
    (((EventStats.init "w").Add 5).Add 10).ConfidenceInterval95 id = .ok
      ((15 : Rat) / 2 - 12.706 * ((25 : Rat) / 2 / 2),
       (15 : Rat) / 2 + 12.706 * ((25 : Rat) / 2 / 2)) := by
  have hcount : (((EventStats.init "w").Add 5).Add 10).Count = 2 := by
    norm_num [EventStats.init, EventStats.Add, EventStats.Count]
  have h := (confidence_interval_95_spec id (((EventStats.init "w").Add 5).Add 10)).2.1
    (by rw [hcount])
  refine ⟨by rw [hcount], ?_⟩
  rw [h, hcount]
  norm_num [EventStats.init, EventStats.Add, EventStats.Average,
    EventStats.StandardDeviation, EventStats.criticalValue, EventStats.tValues]

/-- Claim C8: on an `EventStats` with zero observations, `Count` is 0 and
`Average`, `Min`, `Max` and `StandardDeviation` all return 0; these are
total functions in the source (no error path). -/
theorem empty_eventstats_defaults (s : EventStats) (h : s.observations = []) :
    s.Count = 0 ∧ s.Average = 0 ∧ s.Minimum = 0 ∧ s.Maximum = 0 ∧
    ∀ sqrtFn : Rat → Rat, s.StandardDeviation sqrtFn = 0 := by
  refine ⟨?_, ?_, ?_, ?_, ?_⟩ <;>
    simp [EventStats.Count, EventStats.Average, EventStats.Minimum,
      EventStats.Maximum, EventStats.StandardDeviation, h]

theorem empty_eventstats_defaults_witness :
    (EventStats.init "idle").observations = [] ∧
    (EventStats.init "idle").Count = 0 ∧ (EventStats.init "idle").Average = 0 ∧
    (EventStats.init "idle").Minimum = 0 ∧ (EventStats.init "idle").Maximum = 0 ∧
    (EventStats.init "idle").StandardDeviation id = 0 := by
  have h := empty_eventstats_defaults (EventStats.init "idle") rfl
  exact ⟨rfl, h.1, h.2.1, h.2.2.1, h.2.2.2.1, h.2.2.2.2 id⟩

theorem addAll_observations (l : List Rat) (s : EventStats) :
    (s.addAll l).observations = s.observations ++ l := by
  induction l generalizing s with
  | nil => simp [EventStats.addAll]
  | cons x xs ih =>
    have : s.addAll (x :: xs) = (s.Add x).addAll xs := rfl
    rw [this, ih, EventStats.Add]
    simp

theorem foldl_add_eq (l : List Rat) (a : Rat) : l.foldl (· + ·) a = a + l.sum := by
  induction l generalizing a with
  | nil => simp
  | cons x xs ih => rw [List.foldl_cons, ih, List.sum_cons, add_assoc]

theorem foldl_min_mem (xs : List Rat) : ∀ x : Rat, xs.foldl Min.min x ∈ x :: xs := by
  induction xs with
  | nil => intro x; simp
  | cons y ys ih =>
    intro x
    rw [List.foldl_cons]
    rcases List.mem_cons.1 (ih (Min.min x y)) with h | h
    · rcases min_choice x y with hm | hm <;> rw [h, hm]
      · exact List.mem_cons_self _ _
      · exact List.mem_cons_of_mem _ (List.mem_cons_self _ _)
    · exact List.mem_cons_of_mem _ (List.mem_cons_of_mem _ h)

theorem foldl_min_le (xs : List Rat) :
    ∀ x : Rat, ∀ y ∈ x :: xs, xs.foldl Min.min x ≤ y := by
  induction xs with
  | nil => intro x y hy; rw [List.mem_singleton] at hy; simp [hy]
  | cons z zs ih =>
    intro x y hy
    rw [List.foldl_cons]
    rcases List.mem_cons.1 hy with h | h
    · rw [h]
      exact (ih (Min.min x z) _ (List.mem_cons_self _ _)).trans (min_le_left _ _)
    · rcases List.mem_cons.1 h with h' | h'
      · rw [h']
        exact (ih (Min.min x z) _ (List.mem_cons_self _ _)).trans (min_le_right _ _)
      · exact ih (Min.min x z) _ (List.mem_cons_of_mem _ h')

theorem foldl_max_mem (xs : List Rat) : ∀ x : Rat, xs.foldl Max.max x ∈ x :: xs := by
  induction xs with
  | nil => intro x; simp
  | cons y ys ih =>
    intro x
    rw [List.foldl_cons]
    rcases List.mem_cons.1 (ih (Max.max x y)) with h | h
    · rcases max_choice x y with hm | hm <;> rw [h, hm]
      · exact List.mem_cons_self _ _
      · exact List.mem_cons_of_mem _ (List.mem_cons_self _ _)
    · exact List.mem_cons_of_mem _ (List.mem_cons_of_mem _ h)

theorem foldl_max_ge (xs : List Rat) :
    ∀ x : Rat, ∀ y ∈ x :: xs, y ≤ xs.foldl Max.max x := by
  induction xs with
  | nil => intro x y hy; rw [List.mem_singleton] at hy; simp [hy]
  | cons z zs ih =>
    intro x y hy
    rw [List.foldl_cons]
    rcases List.mem_cons.1 hy with h | h
    · rw [h]
      exact (le_max_left _ _).trans (ih (Max.max x z) _ (List.mem_cons_self _ _))
    · rcases List.mem_cons.1 h with h' | h'
      · rw [h']
        exact (le_max_right _ _).trans (ih (Max.max x z) _ (List.mem_cons_self _ _))
      · exact ih (Max.max x z) _ (List.mem_cons_of_mem _ h')

theorem addAll_average (nm : String) (l : List Rat) (h : l ≠ []) :
    ((EventStats.init nm).addAll l).Average = l.sum / (l.length : Rat) := by
  have hobs : ((EventStats.init nm).addAll l).observations = l := by
    rw [addAll_observations]
    simp [EventStats.init]
  rw [EventStats.Average, hobs, foldl_add_eq]
  simp [h, List.isEmpty_iff]

theorem addAll_min_char (nm : String) (l : List Rat) (h : l ≠ []) :
    ((EventStats.init nm).addAll l).Minimum ∈ l ∧
    ∀ x ∈ l, ((EventStats.init nm).addAll l).Minimum ≤ x := by
  have hobs : ((EventStats.init nm).addAll l).observations = l := by
    rw [addAll_observations]
    simp [EventStats.init]
  rw [EventStats.Minimum, hobs]
  match l, h with
  | x :: xs, _ => exact ⟨foldl_min_mem xs x, foldl_min_le xs x⟩

theorem addAll_max_char (nm : String) (l : List Rat) (h : l ≠ []) :
    ((EventStats.init nm).addAll l).Maximum ∈ l ∧
    ∀ x ∈ l, x ≤ ((EventStats.init nm).addAll l).Maximum := by
  have hobs : ((EventStats.init nm).addAll l).observations = l := by
    rw [addAll_observations]
    simp [EventStats.init]
  rw [EventStats.Maximum, hobs]
  match l, h with
  | x :: xs, _ => exact ⟨foldl_max_mem xs x, foldl_max_ge xs x⟩

/-- Claim C9: after adding any non-empty sequence of observations,
`Average` is the arithmetic mean, `Min` is the least and `Max` the
greatest of them, and all three are invariant under permuting the
insertion order. -/
theorem addAll_mean_min_max_perm (nm : String) (l : List Rat) (h : l ≠ []) :
    ((EventStats.init nm).addAll l).Average = l.sum / (l.length : Rat) ∧
    (((EventStats.init nm).addAll l).Minimum ∈ l ∧
      ∀ x ∈ l, ((EventStats.init nm).addAll l).Minimum ≤ x) ∧
    (((EventStats.init nm).addAll l).Maximum ∈ l ∧
      ∀ x ∈ l, x ≤ ((EventStats.init nm).addAll l).Maximum) ∧
    ∀ l' : List Rat, l.Perm l' →
      ((EventStats.init nm).addAll l').Average =
        ((EventStats.init nm).addAll l).Average ∧
      ((EventStats.init nm).addAll l').Minimum =
        ((EventStats.init nm).addAll l).Minimum ∧
      ((EventStats.init nm).addAll l').Maximum =
        ((EventStats.init nm).addAll l).Maximum := by
  refine ⟨addAll_average nm l h, addAll_min_char nm l h, addAll_max_char nm l h, ?_⟩
  intro l' hperm
  have h' : l' ≠ [] := by
    intro hnil
    exact h (List.Perm.eq_nil (hnil ▸ hperm))
  refine ⟨?_, ?_, ?_⟩
  · rw [addAll_average nm l h, addAll_average nm l' h', hperm.sum_eq, hperm.length_eq]
  · obtain ⟨hm, hb⟩ := addAll_min_char nm l h
    obtain ⟨hm', hb'⟩ := addAll_min_char nm l' h'
    exact le_antisymm (hb' _ (hperm.mem_iff.1 hm)) (hb _ (hperm.mem_iff.2 hm'))
  · obtain ⟨hm, hb⟩ := addAll_max_char nm l h
    obtain ⟨hm', hb'⟩ := addAll_max_char nm l' h'
    exact le_antisymm (hb _ (hperm.mem_iff.2 hm')) (hb' _ (hperm.mem_iff.1 hm))

theorem addAll_mean_min_max_perm_witness :
    ([4, 1, 3] : List Rat) ≠ [] ∧
    ((EventStats.init "w").addAll [4, 1, 3]).Average = (8 : Rat) / 3 ∧
    ((EventStats.init "w").addAll [1, 3, 4]).Minimum =
      ((EventStats.init "w").addAll [4, 1, 3]).Minimum := by
  have h := addAll_mean_min_max_perm "w" [4, 1, 3] (by simp)
  refine ⟨by simp, ?_, ?_⟩
  · rw [h.1]
    norm_num
  · exact (h.2.2.2 [1, 3, 4] (by decide)).2.1

/-! ### StatsCollector: claim C10 -/

theorem lookup_setEntry_self (nm : String) (tw : TimeWeightedStats) :
    ∀ l : List (String × TimeWeightedStats),
      (StatsCollector.setEntry nm tw l).lookup nm = some tw := by
  intro l
  induction l with
  | nil => simp [StatsCollector.setEntry]
  | cons p rest ih =>
    obtain ⟨k, w⟩ := p
    by_cases hk : k = nm
    · simp [StatsCollector.setEntry, hk]
    · have hb : (nm == k) = false := beq_eq_false_iff_ne.mpr (Ne.symm hk)
      simp [StatsCollector.setEntry, hk, List.lookup, hb, ih]

/-- Claim C10: `StatsCollector.Add(name, time, value)` on a fresh name
first creates the map entry and only then calls `Update`; when the update
fails (here: `time < 0`, the initial `lastTime`), the error propagates but
the collector retains a `TimeWeightedStats` under that name, still in its
constructed state (`Count = 1`, `LastTime = 0`, `LastValue = 0`). -/
theorem addtw_error_retains (c : StatsCollector) (nm : String) (t v : Rat)
    (hnew : c.time_weighted_stats.lookup nm = none) (ht : t < 0) :
    (∃ m, (c.AddTW nm t v).1 = .error m) ∧
    (c.AddTW nm t v).2.HasTimeWeighted nm = true ∧
    (c.AddTW nm t v).2.GetTimeWeighted nm = some (TimeWeightedStats.init nm) ∧
    (TimeWeightedStats.init nm).Count = 1 ∧
    (TimeWeightedStats.init nm).LastTime = 0 ∧
    (TimeWeightedStats.init nm).LastValue = 0 := by
  have herr : (TimeWeightedStats.init nm).Update t v =
      .error "Update time must be >= last update time" := by
    simp [TimeWeightedStats.Update, TimeWeightedStats.init, ht]
  unfold StatsCollector.AddTW
  rw [hnew]
  simp only [herr]
  refine ⟨⟨_, rfl⟩, ?_, ?_, rfl, rfl, rfl⟩
  · simp [StatsCollector.HasTimeWeighted, lookup_setEntry_self]
  · simp [StatsCollector.GetTimeWeighted, lookup_setEntry_self]

theorem addtw_error_retains_witness :
    (StatsCollector.init.time_weighted_stats.lookup "queue" = none ∧ (-1 : Rat) < 0) ∧
    (∃ m, (StatsCollector.init.AddTW "queue" (-1) 3).1 = .error m) ∧
    (StatsCollector.init.AddTW "queue" (-1) 3).2.HasTimeWeighted "queue" = true ∧
    (StatsCollector.init.AddTW "queue" (-1) 3).2.GetTimeWeighted "queue" =
      some (TimeWeightedStats.init "queue") := by
  have h := addtw_error_retains StatsCollector.init "queue" (-1) 3 rfl (by norm_num)
  exact ⟨⟨rfl, by norm_num⟩, h.1, h.2.1, h.2.2.1⟩

/-! ### Simulator: structural lemmas -/

theorem set_concat {α : Type} (l : List α) (a b : α) :
    (l ++ [a]).set l.length b = l ++ [b] := by
  induction l with
  | nil => rfl
  | cons x xs ih => simp [List.set, ih]

theorem scheduleNew_def (d : Rat) (a : Action) (s : Simulator) :
    s.scheduleNew d a =
      { s with
        events := s.events ++
          [{ delay := d, time := s.time + d, cancelled := false, action := a }],
        event_queue := s.event_queue.orderedInsert SEle
          ⟨s.time + d, s.event_counter, s.events.length⟩,
        event_counter := s.event_counter + 1 } := by
  simp [Simulator.scheduleNew, Simulator.newEvent, Simulator.schedule,
    List.get?_concat_length, set_concat, Event.mkEvent]

theorem scheduleNew_time (d : Rat) (a : Action) (s : Simulator) :
    (s.scheduleNew d a).time = s.time := by
  rw [scheduleNew_def]

theorem cancel_time (r : Nat) (s : Simulator) : (s.cancel r).time = s.time := by
  unfold Simulator.cancel
  cases s.events.get? r <;> rfl

theorem cancel_queue (r : Nat) (s : Simulator) :
    (s.cancel r).event_queue = s.event_queue := by
  unfold Simulator.cancel
  cases s.events.get? r <;> rfl

theorem execAction_time (a : Action) :
    ∀ s : Simulator, (Simulator.execAction a s).time = s.time := by
  induction a with
  | noop => intro s; rfl
  | seq d c rest ihc ihr =>
    intro s
    rw [Simulator.execAction, ihr, scheduleNew_time]

theorem execAction_events_length (a : Action) :
    ∀ s : Simulator, s.events.length ≤ (Simulator.execAction a s).events.length := by
  induction a with
  | noop => intro s; exact le_refl _
  | seq d c rest ihc ihr =>
    intro s
    rw [Simulator.execAction]
    refine le_trans ?_ (ihr _)
    rw [scheduleNew_def]
    simp

theorem execAction_get? (a : Action) :
    ∀ (s : Simulator) (r : Nat), r < s.events.length →
      (Simulator.execAction a s).events.get? r = s.events.get? r := by
  induction a with
  | noop => intro s r _; rfl
  | seq d c rest ihc ihr =>
    intro s r hr
    rw [Simulator.execAction]
    have hlen : r < (s.scheduleNew d c).events.length := by
      rw [scheduleNew_def]
      simp
      omega
    rw [ihr _ r hlen, scheduleNew_def]
    exact List.get?_append hr

theorem execAction_counter_le (a : Action) :
    ∀ s : Simulator, s.event_counter ≤ (Simulator.execAction a s).event_counter := by
  induction a with
  | noop => intro s; exact le_refl _
  | seq d c rest ihc ihr =>
    intro s
    rw [Simulator.execAction]
    refine le_trans ?_ (ihr _)
    rw [scheduleNew_def]
    exact Nat.le_succ _

theorem execAction_queue_mem (a : Action) :
    ∀ s : Simulator, a.wf = true →
      ∀ x ∈ (Simulator.execAction a s).event_queue,
        x ∈ s.event_queue ∨ (s.time ≤ x.time ∧ s.event_counter ≤ x.id) := by
  induction a with
  | noop => intro s _ x hx; exact Or.inl hx
  | seq d c rest ihc ihr =>
    intro s hwf x hx
    rw [Action.wf, Bool.and_eq_true, Bool.and_eq_true, decide_eq_true_eq] at hwf
    obtain ⟨⟨hd, hcw⟩, hrw⟩ := hwf
    rw [Simulator.execAction] at hx
    rcases ihr (s.scheduleNew d c) hrw x hx with h | ⟨h1, h2⟩
    · rw [scheduleNew_def] at h
      rcases (List.mem_orderedInsert SEle).1 h with h' | h'
      · subst h'
        exact Or.inr ⟨le_add_of_nonneg_right hd, le_refl _⟩
      · exact Or.inl h'
    · rw [scheduleNew_time] at h1
      rw [scheduleNew_def] at h2
      exact Or.inr ⟨h1, le_trans (Nat.le_succ _) h2⟩

/-! ### Simulator: well-formedness preservation -/

theorem init_WF : Simulator.init.WF := by
  refine ⟨?_, ?_, ?_, ?_, ?_⟩ <;> simp [Simulator.init, List.Sorted]

theorem scheduleNew_WF {s : Simulator} {d : Rat} {a : Action}
    (hwf : s.WF) (hd : 0 ≤ d) (ha : a.wf = true) : (s.scheduleNew d a).WF := by
  obtain ⟨h1, h2, h3, h4, h5⟩ := hwf
  rw [scheduleNew_def]
  refine ⟨?_, ?_, ?_, ?_, ?_⟩
  · exact h1.orderedInsert _ _
  · intro e he
    rcases (List.mem_orderedInsert SEle).1 he with h | h
    · rw [h]
      exact Nat.lt_succ_self _
    · exact Nat.lt_succ_of_lt (h2 e h)
  · refine ((List.perm_orderedInsert SEle _ _).pairwise_iff fun h => h.symm).2 ?_
    refine List.pairwise_cons.2 ⟨fun x hx => ?_, h3⟩
    exact Nat.ne_of_gt (h2 x hx)
  · intro e he
    rcases (List.mem_orderedInsert SEle).1 he with h | h
    · rw [h]
      exact le_add_of_nonneg_right hd
    · exact h4 e h
  · intro ev hev
    rcases List.mem_append.1 hev with h | h
    · exact h5 ev h
    · rw [List.mem_singleton.1 h]
      exact ha

theorem cancel_WF {s : Simulator} (r : Nat) (hwf : s.WF) : (s.cancel r).WF := by
  obtain ⟨h1, h2, h3, h4, h5⟩ := hwf
  unfold Simulator.cancel
  cases hg : s.events.get? r with
  | none => exact ⟨h1, h2, h3, h4, h5⟩
  | some ev =>
    refine ⟨h1, h2, h3, h4, ?_⟩
    intro ev' hev'
    rcases List.mem_or_eq_of_mem_set hev' with h | h
    · exact h5 ev' h
    · rw [h]
      exact h5 ev (List.get?_mem hg)

theorem execAction_WF (a : Action) :
    ∀ s : Simulator, s.WF → a.wf = true → (Simulator.execAction a s).WF := by
  induction a with
  | noop => intro s hwf _; exact hwf
  | seq d c rest ihc ihr =>
    intro s hwf hawf
    rw [Action.wf, Bool.and_eq_true, Bool.and_eq_true, decide_eq_true_eq] at hawf
    obtain ⟨⟨hd, hcw⟩, hrw⟩ := hawf
    rw [Simulator.execAction]
    exact ihr _ (scheduleNew_WF hwf hd hcw) hrw

/-- The state entered by the run loop after popping `e` to execute it:
the tail of the queue and the clock set to `e.time`. -/
theorem step_WF (s : Simulator) (e : ScheduledEvent) (rest : List ScheduledEvent)
    (hwf : s.WF) (hq : s.event_queue = e :: rest) :
    ({ s with event_queue := rest, time := e.time } : Simulator).WF := by
  obtain ⟨h1, h2, h3, h4, h5⟩ := hwf
  rw [hq] at h1 h2 h3 h4
  refine ⟨(List.sorted_cons.1 h1).2, ?_, (List.pairwise_cons.1 h3).2, ?_, h5⟩
  · intro x hx
    exact h2 x (List.mem_cons_of_mem _ hx)
  · intro x hx
    exact SEle_time_le ((List.sorted_cons.1 h1).1 x hx)

/-- Same for the lookahead stop: the tail of the queue and the clock set
to `until`. -/
theorem until_step_WF (s : Simulator) (e : ScheduledEvent)
    (rest : List ScheduledEvent) (til : Rat)
    (hwf : s.WF) (hq : s.event_queue = e :: rest) (hle : til ≤ e.time) :
    ({ s with event_queue := rest, time := til } : Simulator).WF := by
  obtain ⟨h1, h2, h3, h4, h5⟩ := hwf
  rw [hq] at h1 h2 h3 h4
  refine ⟨(List.sorted_cons.1 h1).2, ?_, (List.pairwise_cons.1 h3).2, ?_, h5⟩
  · intro x hx
    exact h2 x (List.mem_cons_of_mem _ hx)
  · intro x hx
    exact le_trans hle (SEle_time_le ((List.sorted_cons.1 h1).1 x hx))

/-- Popping a cancelled entry: only the queue shrinks. -/
theorem skip_WF (s : Simulator) (e : ScheduledEvent) (rest : List ScheduledEvent)
    (hwf : s.WF) (hq : s.event_queue = e :: rest) :
    ({ s with event_queue := rest } : Simulator).WF := by
  obtain ⟨h1, h2, h3, h4, h5⟩ := hwf
  rw [hq] at h1 h2 h3 h4
  refine ⟨(List.sorted_cons.1 h1).2, ?_, (List.pairwise_cons.1 h3).2, ?_, h5⟩
  · intro x hx
    exact h2 x (List.mem_cons_of_mem _ hx)
  · intro x hx
    exact h4 x (List.mem_cons_of_mem _ hx)

theorem runAux_WF : ∀ (fuel : Nat) (til : Rat) (s : Simulator), s.WF →
    ((Simulator.runAux fuel til s).1).WF := by
  intro fuel
  induction fuel with
  | zero => intro til s hwf; exact hwf
  | succ fuel ih =>
    intro til s hwf
    rw [Simulator.runAux]
    split
    · exact hwf
    next e rest hq =>
      split
      next hb => exact until_step_WF s e rest til hwf hq hb.2.le
      next hb =>
        split
        next hg => exact skip_WF s e rest hwf hq
        next ev hg =>
          split
          next hc => exact ih til _ (skip_WF s e rest hwf hq)
          next hc =>
            exact ih til _ (execAction_WF ev.action _ (step_WF s e rest hwf hq)
              (hwf.2.2.2.2 ev (List.get?_mem hg)))

theorem runAux_time_mono : ∀ (fuel : Nat) (til : Rat) (s : Simulator), s.WF →
    (til < 0 ∨ s.time ≤ til) → s.time ≤ (Simulator.runAux fuel til s).1.time := by
  intro fuel
  induction fuel with
  | zero => intro til s _ _; exact le_refl _
  | succ fuel ih =>
    intro til s hwf htil
    rw [Simulator.runAux]
    split
    · exact le_refl _
    next e rest hq =>
      split
      next hb =>
        rcases htil with h | h
        · exact absurd hb.1 (not_le.2 h)
        · exact h
      next hb =>
        split
        next hg => exact le_refl _
        next ev hg =>
          split
          next hc => exact ih til _ (skip_WF s e rest hwf hq) htil
          next hc =>
            have h1 : s.time ≤ e.time :=
              hwf.2.2.2.1 e (by rw [hq]; exact List.mem_cons_self e rest)
            have hwf3 := execAction_WF ev.action _ (step_WF s e rest hwf hq)
              (hwf.2.2.2.2 ev (List.get?_mem hg))
            have htil3 : til < 0 ∨
                (Simulator.execAction ev.action
                  { s with event_queue := rest, time := e.time }).time ≤ til := by
              rcases htil with h | h
              · exact Or.inl h
              · rcases not_and_or.1 hb with hb' | hb'
                · exact Or.inl (not_le.1 hb')
                · rw [execAction_time]
                  exact Or.inr (not_lt.1 hb')
            have h2 := ih til _ hwf3 htil3
            rw [execAction_time] at h2
            exact le_trans h1 h2

theorem exec_queue_lb (s : Simulator) (e : ScheduledEvent) (rest : List ScheduledEvent)
    (hwf : s.WF) (hq : s.event_queue = e :: rest) (a : Action) (ha : a.wf = true) :
    ∀ x ∈ (Simulator.execAction a
        { s with event_queue := rest, time := e.time }).event_queue,
      SElt e x := by
  intro x hx
  obtain ⟨h1, h2, h3, h4, h5⟩ := hwf
  rw [hq] at h1 h2 h3
  rcases execAction_queue_mem a _ ha x hx with h | ⟨ht, hid⟩
  · exact SElt_of_SEle_ne ((List.sorted_cons.1 h1).1 x h) ((List.pairwise_cons.1 h3).1 x h)
  · have he_id : e.id < s.event_counter := h2 e (List.mem_cons_self e rest)
    rcases lt_or_eq_of_le ht with h' | h'
    · exact Or.inl h'
    · exact Or.inr ⟨h', lt_of_lt_of_le he_id hid⟩

theorem exec_queue_id_ne (s : Simulator) (e : ScheduledEvent) (rest : List ScheduledEvent)
    (hwf : s.WF) (hq : s.event_queue = e :: rest) (a : Action) (ha : a.wf = true) :
    ∀ x ∈ (Simulator.execAction a
        { s with event_queue := rest, time := e.time }).event_queue,
      x.id ≠ e.id := by
  intro x hx
  obtain ⟨h1, h2, h3, h4, h5⟩ := hwf
  rw [hq] at h1 h2 h3
  rcases execAction_queue_mem a _ ha x hx with h | ⟨ht, hid⟩
  · exact Ne.symm ((List.pairwise_cons.1 h3).1 x h)
  · have he_id : e.id < s.event_counter := h2 e (List.mem_cons_self e rest)
    exact Nat.ne_of_gt (lt_of_lt_of_le he_id hid)

theorem runAux_trace_lb : ∀ (fuel : Nat) (til : Rat) (s : Simulator)
    (b : ScheduledEvent), s.WF → (∀ x ∈ s.event_queue, SElt b x) →
    ∀ e ∈ (Simulator.runAux fuel til s).2, SElt b e := by
  intro fuel
  induction fuel with
  | zero => intro til s b _ _ e he; exact absurd he (List.not_mem_nil e)
  | succ fuel ih =>
    intro til s b hwf hlb e' he'
    rw [Simulator.runAux] at he'
    split at he'
    · exact absurd he' (List.not_mem_nil e')
    next e rest hq =>
      split at he'
      next hb => exact absurd he' (List.not_mem_nil e')
      next hb =>
        split at he'
        next hg => exact absurd he' (List.not_mem_nil e')
        next ev hg =>
          split at he'
          next hc =>
            refine ih til _ b (skip_WF s e rest hwf hq) ?_ e' he'
            intro x hx
            exact hlb x (by rw [hq]; exact List.mem_cons_of_mem e hx)
          next hc =>
            have hhead : SElt b e := hlb e (by rw [hq]; exact List.mem_cons_self e rest)
            rcases List.mem_cons.1 he' with h | h
            · rw [h]; exact hhead
            · refine ih til _ b (execAction_WF ev.action _ (step_WF s e rest hwf hq)
                (hwf.2.2.2.2 ev (List.get?_mem hg))) ?_ e' h
              intro x hx
              exact SElt_trans hhead
                (exec_queue_lb s e rest hwf hq ev.action
                  (hwf.2.2.2.2 ev (List.get?_mem hg)) x hx)

theorem runAux_trace_sorted : ∀ (fuel : Nat) (til : Rat) (s : Simulator), s.WF →
    ((Simulator.runAux fuel til s).2).Pairwise SElt := by
  intro fuel
  induction fuel with
  | zero => intro til s _; exact List.Pairwise.nil
  | succ fuel ih =>
    intro til s hwf
    rw [Simulator.runAux]
    split
    · exact List.Pairwise.nil
    next e rest hq =>
      split
      next hb => exact List.Pairwise.nil
      next hb =>
        split
        next hg => exact List.Pairwise.nil
        next ev hg =>
          split
          next hc => exact ih til _ (skip_WF s e rest hwf hq)
          next hc =>
            have hwf3 := execAction_WF ev.action _ (step_WF s e rest hwf hq)
              (hwf.2.2.2.2 ev (List.get?_mem hg))
            refine List.pairwise_cons.2 ⟨?_, ih til _ hwf3⟩
            intro x hx
            exact runAux_trace_lb fuel til _ e hwf3
              (exec_queue_lb s e rest hwf hq ev.action
                (hwf.2.2.2.2 ev (List.get?_mem hg))) x hx

theorem runAux_trace_id_ne : ∀ (fuel : Nat) (til : Rat) (s : Simulator) (n : Nat),
    s.WF → n < s.event_counter → (∀ x ∈ s.event_queue, x.id ≠ n) →
    ∀ e ∈ (Simulator.runAux fuel til s).2, e.id ≠ n := by
  intro fuel
  induction fuel with
  | zero => intro til s n _ _ _ e he; exact absurd he (List.not_mem_nil e)
  | succ fuel ih =>
    intro til s n hwf hn hne e' he'
    rw [Simulator.runAux] at he'
    split at he'
    · exact absurd he' (List.not_mem_nil e')
    next e rest hq =>
      split at he'
      next hb => exact absurd he' (List.not_mem_nil e')
      next hb =>
        split at he'
        next hg => exact absurd he' (List.not_mem_nil e')
        next ev hg =>
          split at he'
          next hc =>
            refine ih til _ n (skip_WF s e rest hwf hq) hn ?_ e' he'
            intro x hx
            exact hne x (by rw [hq]; exact List.mem_cons_of_mem e hx)
          next hc =>
            have hawf := hwf.2.2.2.2 ev (List.get?_mem hg)
            have hwf3 := execAction_WF ev.action _ (step_WF s e rest hwf hq) hawf
            rcases List.mem_cons.1 he' with h | h
            · rw [h]
              exact hne e (by rw [hq]; exact List.mem_cons_self e rest)
            · refine ih til _ n hwf3 ?_ ?_ e' h
              · exact lt_of_lt_of_le hn (execAction_counter_le ev.action
                  { s with event_queue := rest, time := e.time })
              · intro x hx
                rcases execAction_queue_mem ev.action _ hawf x hx with hmem | ⟨_, hid⟩
                · exact hne x (by rw [hq]; exact List.mem_cons_of_mem e hmem)
                · exact Nat.ne_of_gt (lt_of_lt_of_le hn hid)

theorem runAux_trace_id_nodup : ∀ (fuel : Nat) (til : Rat) (s : Simulator), s.WF →
    ((Simulator.runAux fuel til s).2).Pairwise (fun a b => a.id ≠ b.id) := by
  intro fuel
  induction fuel with
  | zero => intro til s _; exact List.Pairwise.nil
  | succ fuel ih =>
    intro til s hwf
    rw [Simulator.runAux]
    split
    · exact List.Pairwise.nil
    next e rest hq =>
      split
      next hb => exact List.Pairwise.nil
      next hb =>
        split
        next hg => exact List.Pairwise.nil
        next ev hg =>
          split
          next hc => exact ih til _ (skip_WF s e rest hwf hq)
          next hc =>
            have hawf := hwf.2.2.2.2 ev (List.get?_mem hg)
            have hwf3 := execAction_WF ev.action _ (step_WF s e rest hwf hq) hawf
            refine List.pairwise_cons.2 ⟨?_, ih til _ hwf3⟩
            intro x hx
            have he_id : e.id < s.event_counter :=
              hwf.2.1 e (by rw [hq]; exact List.mem_cons_self e rest)
            refine Ne.symm (runAux_trace_id_ne fuel til _ e.id hwf3 ?_ ?_ x hx)
            · exact lt_of_lt_of_le he_id (execAction_counter_le ev.action
                  { s with event_queue := rest, time := e.time })
            · exact exec_queue_id_ne s e rest hwf hq ev.action hawf

theorem runAux_cancelled_not_executed : ∀ (fuel : Nat) (til : Rat) (s : Simulator)
    (r : Nat) (ev : Event), s.events.get? r = some ev → ev.cancelled = true →
    ∀ e ∈ (Simulator.runAux fuel til s).2, e.ref ≠ r := by
  intro fuel
  induction fuel with
  | zero => intro til s r ev _ _ e he; exact absurd he (List.not_mem_nil e)
  | succ fuel ih =>
    intro til s r ev hr hcanc e' he'
    rw [Simulator.runAux] at he'
    split at he'
    · exact absurd he' (List.not_mem_nil e')
    next e rest hq =>
      split at he'
      next hb => exact absurd he' (List.not_mem_nil e')
      next hb =>
        split at he'
        next hg => exact absurd he' (List.not_mem_nil e')
        next ev' hg =>
          split at he'
          next hc =>
            exact ih til { s with event_queue := rest } r ev hr hcanc e' he'
          next hc =>
            rcases List.mem_cons.1 he' with h | h
            · rw [h]
              intro hrr
              rw [hrr, hr] at hg
              exact hc (Option.some.inj hg ▸ hcanc)
            · have hrlen : r < s.events.length := by
                rcases List.get?_eq_some.1 hr with ⟨hl, _⟩
                exact hl
              refine ih til _ r ev ?_ hcanc e' h
              rw [execAction_get? ev'.action
                { s with event_queue := rest, time := e.time } r hrlen]
              exact hr

theorem runAux_nil : ∀ (fuel : Nat) (til : Rat) (s : Simulator),
    s.event_queue = [] → Simulator.runAux fuel til s = (s, []) := by
  intro fuel til s h
  cases fuel with
  | zero => rfl
  | succ n =>
    rw [Simulator.runAux, h]

theorem runAux_time_provenance : ∀ (fuel : Nat) (til : Rat) (s : Simulator),
    (Simulator.runAux fuel til s).1.time = s.time ∨
    (Simulator.runAux fuel til s).1.time = til ∨
    ∃ e ∈ (Simulator.runAux fuel til s).2,
      (Simulator.runAux fuel til s).1.time = e.time := by
  intro fuel
  induction fuel with
  | zero => intro til s; exact Or.inl rfl
  | succ fuel ih =>
    intro til s
    rw [Simulator.runAux]
    split
    · exact Or.inl rfl
    next e rest hq =>
      split
      next hb => exact Or.inr (Or.inl rfl)
      next hb =>
        split
        next hg => exact Or.inl rfl
        next ev hg =>
          split
          next hc => exact ih til _
          next hc =>
            rcases ih til (Simulator.execAction ev.action
                { s with event_queue := rest, time := e.time }) with h | h | ⟨e', he', h⟩
            · rw [execAction_time] at h
              exact Or.inr (Or.inr ⟨e, List.mem_cons_self _ _, h⟩)
            · exact Or.inr (Or.inl h)
            · exact Or.inr (Or.inr ⟨e', List.mem_cons_of_mem e he', h⟩)

theorem runAux_cons_until (fuel : Nat) (til : Rat) (s : Simulator)
    (e : ScheduledEvent) (rest : List ScheduledEvent)
    (hq : s.event_queue = e :: rest) (hb : 0 ≤ til ∧ til < e.time) :
    Simulator.runAux (fuel + 1) til s =
      ({ s with event_queue := rest, time := til }, []) := by
  rw [Simulator.runAux]
  split
  next h => rw [hq] at h; exact absurd h (List.cons_ne_nil e rest)
  next e' rest' heq =>
    rw [hq] at heq
    rcases List.cons.inj heq with ⟨rfl, rfl⟩
    rw [if_pos hb]

theorem runAux_cons_none (fuel : Nat) (til : Rat) (s : Simulator)
    (e : ScheduledEvent) (rest : List ScheduledEvent)
    (hq : s.event_queue = e :: rest) (hb : ¬(0 ≤ til ∧ til < e.time))
    (hg : s.events.get? e.ref = none) :
    Simulator.runAux (fuel + 1) til s = ({ s with event_queue := rest }, []) := by
  rw [Simulator.runAux]
  split
  next h => rw [hq] at h; exact absurd h (List.cons_ne_nil e rest)
  next e' rest' heq =>
    rw [hq] at heq
    rcases List.cons.inj heq with ⟨rfl, rfl⟩
    rw [if_neg hb]
    split
    next => rfl
    next ev hg' => rw [hg] at hg'; cases hg'

theorem runAux_cons_skip (fuel : Nat) (til : Rat) (s : Simulator)
    (e : ScheduledEvent) (rest : List ScheduledEvent) (ev : Event)
    (hq : s.event_queue = e :: rest) (hb : ¬(0 ≤ til ∧ til < e.time))
    (hg : s.events.get? e.ref = some ev) (hc : ev.cancelled = true) :
    Simulator.runAux (fuel + 1) til s =
      Simulator.runAux fuel til { s with event_queue := rest } := by
  rw [Simulator.runAux]
  split
  next h => rw [hq] at h; exact absurd h (List.cons_ne_nil e rest)
  next e' rest' heq =>
    rw [hq] at heq
    rcases List.cons.inj heq with ⟨rfl, rfl⟩
    rw [if_neg hb]
    split
    next hg' => rw [hg] at hg'; cases hg'
    next ev' hg' =>
      rw [hg] at hg'
      rcases Option.some.inj hg' with rfl
      rw [if_pos hc]

theorem runAux_cons_exec (fuel : Nat) (til : Rat) (s : Simulator)
    (e : ScheduledEvent) (rest : List ScheduledEvent) (ev : Event)
    (hq : s.event_queue = e :: rest) (hb : ¬(0 ≤ til ∧ til < e.time))
    (hg : s.events.get? e.ref = some ev) (hc : ev.cancelled = false) :
    Simulator.runAux (fuel + 1) til s =
      Simulator.consTrace e (Simulator.runAux fuel til
        (Simulator.execAction ev.action
          { s with event_queue := rest, time := e.time })) := by
  rw [Simulator.runAux]
  split
  next h => rw [hq] at h; exact absurd h (List.cons_ne_nil e rest)
  next e' rest' heq =>
    rw [hq] at heq
    rcases List.cons.inj heq with ⟨rfl, rfl⟩
    rw [if_neg hb]
    split
    next hg' => rw [hg] at hg'; cases hg'
    next ev' hg' =>
      rw [hg] at hg'
      rcases Option.some.inj hg' with rfl
      rw [if_neg (by rw [hc]; exact Bool.false_ne_true)]

theorem runAux_notrace_time : ∀ (fuel : Nat) (til : Rat) (s : Simulator), til < 0 →
    (Simulator.runAux fuel til s).2 = [] →
    (Simulator.runAux fuel til s).1.time = s.time := by
  intro fuel
  induction fuel with
  | zero => intro til s _ _; rfl
  | succ fuel ih =>
    intro til s htil htr
    cases hq : s.event_queue with
    | nil => rw [runAux_nil (fuel + 1) til s hq]
    | cons e rest =>
      have hb : ¬(0 ≤ til ∧ til < e.time) := fun h => absurd h.1 (not_le.2 htil)
      cases hg : s.events.get? e.ref with
      | none => rw [runAux_cons_none fuel til s e rest hq hb hg]
      | some ev =>
        cases hc : ev.cancelled with
        | true =>
          rw [runAux_cons_skip fuel til s e rest ev hq hb hg hc] at htr ⊢
          exact ih til _ htil htr
        | false =>
          rw [runAux_cons_exec fuel til s e rest ev hq hb hg hc] at htr
          simp [Simulator.consTrace] at htr

/-! ### Operation sequences -/

theorem okOps_time_mono : ∀ (ops : List Op) (s : Simulator), s.WF → okOps s ops →
    s.time ≤ (applyOps ops s).time := by
  intro ops
  induction ops with
  | nil => intro s _ _; exact le_refl _
  | cons op rest ih =>
    intro s hwf hok
    obtain ⟨hop, hrest⟩ := hok
    cases op with
    | sched d a =>
      exact le_trans (le_of_eq (scheduleNew_time d a s).symm)
        (ih _ (scheduleNew_WF hwf hop.1 hop.2) hrest)
    | cancel r =>
      exact le_trans (le_of_eq (cancel_time r s).symm) (ih _ (cancel_WF r hwf) hrest)
    | runOp til fuel =>
      exact le_trans (runAux_time_mono fuel til s hwf hop)
        (ih _ (runAux_WF fuel til s hwf) hrest)

/-! ### Claims C1 - C4 -/

/-- Claim C1 (code bug): `run(until)` pops the earliest entry and, when
`until >= 0 && event_time > until`, sets `time = until` and returns
*without re-inserting the popped entry*.  With events at t=5 and t=15,
`run(10)` leaves `now() = 10` (the part of the claim the code honours)
and executes only the t=5 event, but the queue is then empty — the t=15
entry is lost — so a subsequent unbounded `run()` executes nothing and
leaves `now()` at 10, instead of processing the pending entry at t=15 as
the claim requires. -/
theorem run_until_drops_pending_entry :
    (Simulator.runAux 10 10
      ((Simulator.init.scheduleNew 5 Action.noop).scheduleNew 15 Action.noop)).1.time
      = 10 ∧
    (Simulator.runAux 10 10
      ((Simulator.init.scheduleNew 5 Action.noop).scheduleNew 15 Action.noop)).2
      = [⟨5, 0, 0⟩] ∧
    (Simulator.runAux 10 10
      ((Simulator.init.scheduleNew 5 Action.noop).scheduleNew 15 Action.noop)).1.event_queue
      = [] ∧
    (Simulator.runAux 10 (-1) ((Simulator.runAux 10 10
      ((Simulator.init.scheduleNew 5 Action.noop).scheduleNew 15 Action.noop)).1)).2
      = [] ∧
    (Simulator.runAux 10 (-1) ((Simulator.runAux 10 10
      ((Simulator.init.scheduleNew 5 Action.noop).scheduleNew 15 Action.noop)).1)).1.time
      = 10 := by
  norm_num [Simulator.runAux, Simulator.scheduleNew, Simulator.newEvent,
    Simulator.schedule, Simulator.execAction, Simulator.init, Event.mkEvent,
    Simulator.consTrace, List.orderedInsert, SEle]

/-- Claim C2 counterexample: after `scheduleNew 5; run()` the clock is 5;
scheduling an event at t=15 and calling `run(2)` (a bound below the
current time) sets the clock *back* to 2 while executing nothing — the
clock is not monotone and changed without any event being executed. -/
theorem time_decreases_on_low_until :
    (Simulator.runAux 5 (-1) (Simulator.init.scheduleNew 5 Action.noop)).1.time = 5 ∧
    (Simulator.runAux 5 2
      (((Simulator.runAux 5 (-1) (Simulator.init.scheduleNew 5 Action.noop)).1).scheduleNew
        10 Action.noop)).1.time = 2 ∧
    (Simulator.runAux 5 2
      (((Simulator.runAux 5 (-1) (Simulator.init.scheduleNew 5 Action.noop)).1).scheduleNew
        10 Action.noop)).2 = [] ∧
    ¬(5 : Rat) ≤ 2 := by
  norm_num [Simulator.runAux, Simulator.scheduleNew, Simulator.newEvent,
    Simulator.schedule, Simulator.execAction, Simulator.init, Event.mkEvent,
    Simulator.consTrace, List.orderedInsert, SEle]

/-- Claim C2 (amended): under the calling discipline `okOps` — scheduled
delays non-negative and every bounded `run(until)` invoked with
`until >= now()` or `until < 0` — the clock is monotonically
non-decreasing along any schedule/cancel/run sequence; `cancel` never
changes the clock; an unbounded run that executes no event leaves the
clock unchanged (cancelled entries are skipped without advancing it); and
after any run the clock either is unchanged, equals `until` (lookahead
stop at a not-yet-due entry), or equals the time of an executed event. -/
theorem time_monotone_amended (s : Simulator) (ops : List Op)
    (hwf : s.WF) (hops : okOps s ops) :
    s.time ≤ (applyOps ops s).time ∧
    (∀ r, (s.cancel r).time = s.time) ∧
    (∀ fuel til, til < 0 → (Simulator.runAux fuel til s).2 = [] →
      (Simulator.runAux fuel til s).1.time = s.time) ∧
    (∀ fuel til, (Simulator.runAux fuel til s).1.time = s.time ∨
      (Simulator.runAux fuel til s).1.time = til ∨
      ∃ e ∈ (Simulator.runAux fuel til s).2,
        (Simulator.runAux fuel til s).1.time = e.time) :=
  ⟨okOps_time_mono ops s hwf hops,
   fun r => cancel_time r s,
   fun fuel til => runAux_notrace_time fuel til s,
   fun fuel til => runAux_time_provenance fuel til s⟩

theorem time_monotone_amended_witness :
    Simulator.init.time ≤
      (applyOps [Op.sched 5 Action.noop, Op.runOp (-1) 5] Simulator.init).time := by
  have hok : okOps Simulator.init [Op.sched 5 Action.noop, Op.runOp (-1) 5] :=
    ⟨⟨by norm_num, rfl⟩, Or.inl (by norm_num), trivial⟩
  exact (time_monotone_amended Simulator.init
    [Op.sched 5 Action.noop, Op.runOp (-1) 5] init_WF hok).1

/-- Claim C3: from any well-formed simulator state, the entries a run
executes appear in non-decreasing time order, and two entries with equal
time execute in order of their (monotonically assigned) sequence ids —
the trace is sorted under the strict `(time, id)` lexicographic order
`SElt`; moreover `schedule` stamps the entry with the absolute time
`now() + delay` and the current counter value as its id, and increments
the counter. -/
theorem run_time_order_fifo (s : Simulator) (hwf : s.WF) :
    (∀ fuel til, ((Simulator.runAux fuel til s).2).Pairwise SElt) ∧
    (∀ d a, (s.scheduleNew d a).event_queue.Perm
        (⟨s.time + d, s.event_counter, s.events.length⟩ :: s.event_queue) ∧
      (s.scheduleNew d a).event_counter = s.event_counter + 1) :=
  ⟨fun fuel til => runAux_trace_sorted fuel til s hwf,
   fun d a => ⟨by rw [scheduleNew_def]; exact List.perm_orderedInsert _ _ _,
     by rw [scheduleNew_def]⟩⟩

theorem run_time_order_fifo_witness :
    ((Simulator.runAux 10 (-1)
      ((Simulator.init.scheduleNew 5 Action.noop).scheduleNew 15 Action.noop)).2).Pairwise
      SElt := by
  have hstate : (Simulator.init.scheduleNew 5 Action.noop).scheduleNew 15 Action.noop =
      { time := 0, log_events := false, event_counter := 2,
        event_queue := [⟨5, 0, 0⟩, ⟨15, 1, 1⟩],
        events := [⟨5, 5, false, Action.noop⟩, ⟨15, 15, false, Action.noop⟩] } := by
    norm_num [Simulator.scheduleNew, Simulator.newEvent, Simulator.schedule,
      Simulator.init, Event.mkEvent, List.orderedInsert, SEle]
  have hwf : ((Simulator.init.scheduleNew 5 Action.noop).scheduleNew 15 Action.noop).WF := by
    rw [hstate]
    refine ⟨?_, ?_, ?_, ?_, ?_⟩
    · refine List.sorted_cons.2 ⟨?_, List.sorted_singleton _⟩
      intro b hb
      rw [List.mem_singleton.1 hb]
      exact Or.inl (by norm_num)
    · intro e he
      rcases List.mem_cons.1 he with h | h
      · rw [h]; norm_num
      · rw [List.mem_singleton.1 h]; norm_num
    · refine List.pairwise_cons.2 ⟨?_, List.pairwise_singleton _ _⟩
      intro b hb
      rw [List.mem_singleton.1 hb]
      norm_num
    · intro e he
      rcases List.mem_cons.1 he with h | h
      · rw [h]; norm_num
      · rw [List.mem_singleton.1 h]; norm_num
    · intro ev hev
      rcases List.mem_cons.1 hev with h | h
      · rw [h]; rfl
      · rw [List.mem_singleton.1 h]; rfl
  exact (run_time_order_fifo _ hwf).1 10 (-1)

/-- Claim C4: a pending event whose `cancelled` flag is set before its
entry is popped is never executed: its arena reference never appears in
any run's execution trace; every scheduled entry is executed at most once
(trace ids are pairwise distinct); popping the cancelled entry is a pure
skip — the same run continues on the remaining queue with the clock
untouched; and when the cancelled entry is the only pending one, an
unbounded `run` leaves `now()` unchanged and executes nothing. -/
theorem cancel_prevents_execution (s : Simulator) (r : Nat) (ev : Event)
    (hwf : s.WF) (hr : s.events.get? r = some ev) (hc : ev.cancelled = true) :
    (∀ fuel til, ∀ e ∈ (Simulator.runAux fuel til s).2, e.ref ≠ r) ∧
    (∀ fuel til,
      ((Simulator.runAux fuel til s).2).Pairwise (fun a b => a.id ≠ b.id)) ∧
    (∀ fuel til e rest, s.event_queue = e :: rest → e.ref = r →
      ¬(0 ≤ til ∧ til < e.time) →
      Simulator.runAux (fuel + 1) til s =
        Simulator.runAux fuel til { s with event_queue := rest }) ∧
    (∀ fuel til e, s.event_queue = [e] → e.ref = r → til < 0 →
      (Simulator.runAux fuel til s).1.time = s.time ∧
      (Simulator.runAux fuel til s).2 = []) := by
  refine ⟨fun fuel til => runAux_cancelled_not_executed fuel til s r ev hr hc,
    fun fuel til => runAux_trace_id_nodup fuel til s hwf, ?_, ?_⟩
  · intro fuel til e rest hq href hb
    exact runAux_cons_skip fuel til s e rest ev hq hb (by rw [href]; exact hr) hc
  · intro fuel til e hq href htil
    have hb : ¬(0 ≤ til ∧ til < e.time) := fun h => absurd h.1 (not_le.2 htil)
    cases fuel with
    | zero => exact ⟨rfl, rfl⟩
    | succ n =>
      rw [runAux_cons_skip n til s e [] ev hq hb (by rw [href]; exact hr) hc,
        runAux_nil n til _ rfl]
      exact ⟨rfl, rfl⟩

theorem cancel_prevents_execution_witness :
    (Simulator.runAux 3 (-1)
      ((Simulator.init.scheduleNew 5 Action.noop).cancel 0)).1.time =
      ((Simulator.init.scheduleNew 5 Action.noop).cancel 0).time ∧
    (Simulator.runAux 3 (-1)
      ((Simulator.init.scheduleNew 5 Action.noop).cancel 0)).2 = [] := by
  have hstate : (Simulator.init.scheduleNew 5 Action.noop).cancel 0 =
      { time := 0, log_events := false, event_counter := 1,
        event_queue := [⟨5, 0, 0⟩],
        events := [⟨5, 5, true, Action.noop⟩] } := by
    norm_num [Simulator.scheduleNew, Simulator.newEvent, Simulator.schedule,
      Simulator.cancel, Simulator.init, Event.mkEvent, List.orderedInsert, SEle]
  have hwf : ((Simulator.init.scheduleNew 5 Action.noop).cancel 0).WF := by
    rw [hstate]
    refine ⟨List.sorted_singleton _, ?_, List.pairwise_singleton _ _, ?_, ?_⟩
    · intro e he; rw [List.mem_singleton.1 he]; norm_num
    · intro e he; rw [List.mem_singleton.1 he]; norm_num
    · intro ev hev; rw [List.mem_singleton.1 hev]; rfl
  have h := cancel_prevents_execution
    ((Simulator.init.scheduleNew 5 Action.noop).cancel 0)
    0 ⟨5, 5, true, Action.noop⟩ hwf (by rw [hstate]; rfl) rfl
  exact h.2.2.2 3 (-1) ⟨5, 0, 0⟩ (by rw [hstate]) rfl (by norm_num)

end DESVU
